import Mathlib

/- A verification development for the cache-backed scraping pipeline of
   proj2_nps.py (a national-sites scraper with an on-disk JSON cache).

   The embedding is shallow and executable:
   * JSON documents are modelled by the inductive type JVal, whose numeric
     leaves are integers (the pipeline never inspects numbers, so the
     fractional part of JSON numbers is irrelevant to every claim).
   * Python's json.dumps / json.loads are modelled by a concrete
     character-level printer (dumpsV) and parser (parseValue), for which a
     full printer/parser round-trip theorem is proved.  The printer follows
     json.dumps' default separators; non-ASCII characters are emitted
     verbatim rather than as escape sequences, which loads accepts equally.
   * The process state carries the backing cache file (the raw string, or
     none when the file is missing) and the module-level CACHE_DICT global;
     network activity is a parameter (an upstream function) together with a
     count of requests issued.
   * HTML pages are modelled by what each designated BeautifulSoup query
     would return: an optional text per designated marker; an absent marker
     makes the corresponding attribute access raise, which the embedding
     renders as `none` (Python's uncaught-exception outcome).  -/

set_option maxRecDepth 8192

inductive JVal where
  | jnull : JVal
  | jbool : Bool → JVal
  | jnum : Int → JVal
  | jstr : String → JVal
  | jarr : List JVal → JVal
  | jobj : List (String × JVal) → JVal

/-- The opening-brace character, written by its code point. -/
def lbrace : Char := '\x7b'

/-- The closing-brace character, written by its code point. -/
def rbrace : Char := '\x7d'

/-- Decimal digit character for n < 10. -/
def digitCh : Nat → Char
  | 0 => '0'
  | 1 => '1'
  | 2 => '2'
  | 3 => '3'
  | 4 => '4'
  | 5 => '5'
  | 6 => '6'
  | 7 => '7'
  | 8 => '8'
  | 9 => '9'
  | _ + 10 => '0'

/-- Lower-case hexadecimal digit character for n < 16. -/
def hexDigitCh : Nat → Char
  | 0 => '0'
  | 1 => '1'
  | 2 => '2'
  | 3 => '3'
  | 4 => '4'
  | 5 => '5'
  | 6 => '6'
  | 7 => '7'
  | 8 => '8'
  | 9 => '9'
  | 10 => 'a'
  | 11 => 'b'
  | 12 => 'c'
  | 13 => 'd'
  | 14 => 'e'
  | 15 => 'f'
  | _ + 16 => '0'

/-- Most-significant-digit-first decimal rendering of a natural number. -/
def natToDigits (n : Nat) : List Char :=
  if _h : n < 10 then [digitCh n]
  else natToDigits (n / 10) ++ [digitCh (n % 10)]
termination_by n
decreasing_by exact Nat.div_lt_self (by omega) (by omega)

/-- Decimal rendering of an integer, as Python's repr of int. -/
def renderInt : Int → List Char
  | Int.ofNat n => natToDigits n
  | Int.negSucc m => '-' :: natToDigits (m + 1)

/-- JSON string-literal escaping of one character, as json.dumps does:
    backslash, double quote and the named control characters get short
    escapes, remaining control characters get a \u00XX escape, everything
    else is emitted verbatim. -/
def escChar (c : Char) : List Char :=
  if c = '\"' then ['\\', '\"']
  else if c = '\\' then ['\\', '\\']
  else if c = '\n' then ['\\', 'n']
  else if c = '\t' then ['\\', 't']
  else if c = '\r' then ['\\', 'r']
  else if c.toNat = 8 then ['\\', 'b']
  else if c.toNat = 12 then ['\\', 'f']
  else if c.toNat < 32 then ['\\', 'u', '0', '0', hexDigitCh (c.toNat / 16), hexDigitCh (c.toNat % 16)]
  else [c]

/-- Escape a whole character list. -/
def escList : List Char → List Char
  | [] => []
  | c :: cs => escChar c ++ escList cs

mutual

/-- Character-level model of json.dumps with its default separators
    (", " between items, ": " between a key and a value). -/
def dumpsV : JVal → List Char
  | JVal.jnull => ['n', 'u', 'l', 'l']
  | JVal.jbool true => ['t', 'r', 'u', 'e']
  | JVal.jbool false => ['f', 'a', 'l', 's', 'e']
  | JVal.jnum n => renderInt n
  | JVal.jstr s => '\"' :: (escList s.data ++ ['\"'])
  | JVal.jarr [] => ['[', ']']
  | JVal.jarr (e :: es) => '[' :: (dumpsV e ++ (dumpsElems es ++ [']']))
  | JVal.jobj [] => [lbrace, rbrace]
  | JVal.jobj (m :: ms) => lbrace :: (dumpsMember m ++ (dumpsMembers ms ++ [rbrace]))

/-- One key/value member, rendered as "key": value. -/
def dumpsMember : String × JVal → List Char
  | (k, v) => '\"' :: (escList k.data ++ ('\"' :: ':' :: ' ' :: dumpsV v))

/-- The remaining array elements, each preceded by ", ". -/
def dumpsElems : List JVal → List Char
  | [] => []
  | e :: es => ',' :: ' ' :: (dumpsV e ++ dumpsElems es)

/-- The remaining object members, each preceded by ", ". -/
def dumpsMembers : List (String × JVal) → List Char
  | [] => []
  | m :: ms => ',' :: ' ' :: (dumpsMember m ++ dumpsMembers ms)

end

mutual

/-- Fuel needed by the parser on the printed form of a value: one unit per
    parser entry along any call chain (calls do not consume fuel across
    siblings, hence the max). -/
def costV : JVal → Nat
  | JVal.jnull => 1
  | JVal.jbool _ => 1
  | JVal.jnum _ => 1
  | JVal.jstr _ => 1
  | JVal.jarr es => 1 + costElems es
  | JVal.jobj ms => 1 + costMembers ms

def costElems : List JVal → Nat
  | [] => 0
  | e :: es => 1 + max (costV e) (costElems es)

def costMembers : List (String × JVal) → Nat
  | [] => 0
  | (_, v) :: ms => 1 + max (costV v) (costMembers ms)

end

/-- JSON insignificant whitespace. -/
def isWs (c : Char) : Bool := c = ' ' || c = '\n' || c = '\t' || c = '\r'

/-- Drop leading insignificant whitespace. -/
def skipWs : List Char → List Char
  | [] => []
  | c :: cs => if isWs c then skipWs cs else c :: cs

/-- Decimal digit test on the character's code point. -/
def isDig (c : Char) : Bool := 48 ≤ c.toNat && c.toNat ≤ 57

/-- Hexadecimal digit value, accepting both letter cases. -/
def hexVal (c : Char) : Option Nat :=
  if 48 ≤ c.toNat && c.toNat ≤ 57 then some (c.toNat - 48)
  else if 97 ≤ c.toNat && c.toNat ≤ 102 then some (c.toNat - 87)
  else if 65 ≤ c.toNat && c.toNat ≤ 70 then some (c.toNat - 55)
  else none

/-- Consume a maximal run of decimal digits, accumulating their value. -/
def parseDigits : List Char → Nat → Nat × List Char
  | [], acc => (acc, [])
  | c :: cs, acc =>
    if isDig c then parseDigits cs (acc * 10 + (c.toNat - 48)) else (acc, c :: cs)

/-- Parse the body of a JSON string literal (the opening quote already
    consumed), undoing the escapes json.dumps produces; returns the decoded
    characters and the input after the closing quote. -/
def parseStringBody : List Char → Option (List Char × List Char)
  | [] => none
  | c :: cs =>
    if c = '\"' then some ([], cs)
    else if c = '\\' then
      match cs with
      | [] => none
      | e :: cs1 =>
        if e = '\"' then (parseStringBody cs1).map (fun p => ('\"' :: p.1, p.2))
        else if e = '\\' then (parseStringBody cs1).map (fun p => ('\\' :: p.1, p.2))
        else if e = '/' then (parseStringBody cs1).map (fun p => ('/' :: p.1, p.2))
        else if e = 'n' then (parseStringBody cs1).map (fun p => ('\n' :: p.1, p.2))
        else if e = 't' then (parseStringBody cs1).map (fun p => ('\t' :: p.1, p.2))
        else if e = 'r' then (parseStringBody cs1).map (fun p => ('\r' :: p.1, p.2))
        else if e = 'b' then (parseStringBody cs1).map (fun p => (Char.ofNat 8 :: p.1, p.2))
        else if e = 'f' then (parseStringBody cs1).map (fun p => (Char.ofNat 12 :: p.1, p.2))
        else if e = 'u' then
          match cs1 with
          | h1 :: h2 :: h3 :: h4 :: cs2 =>
            match hexVal h1, hexVal h2, hexVal h3, hexVal h4 with
            | some a, some b, some c1, some d =>
              (parseStringBody cs2).map
                (fun p => (Char.ofNat (a * 4096 + b * 256 + c1 * 16 + d) :: p.1, p.2))
            | _, _, _, _ => none
          | _ => none
        else none
    else (parseStringBody cs).map (fun p => (c :: p.1, p.2))
termination_by l => l.length
decreasing_by all_goals simp_arith

/-- Expect a fixed sequence of characters, returning the remainder. -/
def expectChars : List Char → List Char → Option (List Char)
  | [], input => some input
  | _ :: _, [] => none
  | p :: ps, c :: cs => if c = p then expectChars ps cs else none

mutual

/-- Character-level model of json.loads' value parser, with explicit fuel;
    every recursive call decrements the fuel, so fuel bounds the depth of
    the parser's call chain.  Number parsing is restricted to integers,
    matching the numeric leaves of JVal. -/
def parseValue : Nat → List Char → Option (JVal × List Char)
  | 0, _ => none
  | f + 1, input =>
    match skipWs input with
    | [] => none
    | c :: cs =>
      if c = '\"' then
        match parseStringBody cs with
        | some (s, r) => some (JVal.jstr (String.mk s), r)
        | none => none
      else if c = lbrace then
        match skipWs cs with
        | [] => none
        | c1 :: r1 =>
          if c1 = rbrace then some (JVal.jobj [], r1)
          else
            match parseMembers f (c1 :: r1) with
            | some (ms, r) => some (JVal.jobj ms, r)
            | none => none
      else if c = '[' then
        match skipWs cs with
        | [] => none
        | c1 :: r1 =>
          if c1 = ']' then some (JVal.jarr [], r1)
          else
            match parseElems f (c1 :: r1) with
            | some (es, r) => some (JVal.jarr es, r)
            | none => none
      else if c = 't' then (expectChars ['r', 'u', 'e'] cs).map (fun r => (JVal.jbool true, r))
      else if c = 'f' then (expectChars ['a', 'l', 's', 'e'] cs).map (fun r => (JVal.jbool false, r))
      else if c = 'n' then (expectChars ['u', 'l', 'l'] cs).map (fun r => (JVal.jnull, r))
      else if c = '-' then
        match cs with
        | [] => none
        | d :: _ =>
          if isDig d then
            match parseDigits cs 0 with
            | (n, r) => some (JVal.jnum (-(n : Int)), r)
          else none
      else if isDig c then
        match parseDigits (c :: cs) 0 with
        | (n, r) => some (JVal.jnum (n : Int), r)
      else none

/-- Parse a non-empty comma-separated element list up to the closing
    bracket (which it consumes). -/
def parseElems : Nat → List Char → Option (List JVal × List Char)
  | 0, _ => none
  | f + 1, input =>
    match parseValue f (skipWs input) with
    | none => none
    | some (v, r) =>
      match skipWs r with
      | [] => none
      | c :: r1 =>
        if c = ',' then
          match parseElems f r1 with
          | some (vs, r2) => some (v :: vs, r2)
          | none => none
        else if c = ']' then some ([v], r1)
        else none

/-- Parse a non-empty comma-separated member list up to the closing brace
    (which it consumes). -/
def parseMembers : Nat → List Char → Option (List (String × JVal) × List Char)
  | 0, _ => none
  | f + 1, input =>
    match skipWs input with
    | [] => none
    | c :: cs =>
      if c = '\"' then
        match parseStringBody cs with
        | none => none
        | some (k, r) =>
          match skipWs r with
          | [] => none
          | c1 :: r1 =>
            if c1 = ':' then
              match parseValue f r1 with
              | none => none
              | some (v, r2) =>
                match skipWs r2 with
                | [] => none
                | c2 :: r3 =>
                  if c2 = ',' then
                    match parseMembers f r3 with
                    | some (ms, r4) => some ((String.mk k, v) :: ms, r4)
                    | none => none
                  else if c2 = rbrace then some ([(String.mk k, v)], r3)
                  else none
            else none
      else none

end

/-- Model of json.dumps at the String level. -/
def json_dumps (v : JVal) : String := String.mk (dumpsV v)

/-- Model of json.loads: parse one value and insist that only whitespace
    follows, as json.loads raises on trailing data.  The fuel length+1 is
    sufficient because the parser consumes at least one character between
    consecutive entries along any call chain. -/
def json_loads (s : String) : Option JVal :=
  match parseValue (s.data.length + 1) s.data with
  | some (v, rest) => if skipWs rest = [] then some v else none
  | none => none

/-- The input does not begin with a decimal digit (so a preceding number
    parse cannot extend into it). -/
def headNotDig (l : List Char) : Prop := ∀ c, l.head? = some c → isDig c = false

theorem skipWs_cons_of_not {c : Char} (cs : List Char) (h : isWs c = false) :
    skipWs (c :: cs) = c :: cs := by simp [skipWs, h]

theorem skipWs_cons_of_ws {c : Char} (cs : List Char) (h : isWs c = true) :
    skipWs (c :: cs) = skipWs cs := by simp [skipWs, h]

theorem char_ne_of_toNat_ne {a b : Char} (h : a.toNat ≠ b.toNat) : a ≠ b :=
  fun e => h (congrArg Char.toNat e)

theorem digitCh_isDig : ∀ n, n < 10 → isDig (digitCh n) = true := by decide

theorem digitCh_val : ∀ n, n < 10 → (digitCh n).toNat - 48 = n := by decide

theorem isDig_toNat {c : Char} (h : isDig c = true) : 48 ≤ c.toNat ∧ c.toNat ≤ 57 := by
  simpa [isDig] using h

theorem isDig_not_ws {c : Char} (h : isDig c = true) : isWs c = false := by
  obtain ⟨h1, h2⟩ := isDig_toNat h
  simp only [isWs, Bool.or_eq_false_iff, decide_eq_false_iff_not]
  refine ⟨⟨⟨?_, ?_⟩, ?_⟩, ?_⟩ <;> (apply char_ne_of_toNat_ne; simp; omega)

theorem natToDigits_ne_nil (n : Nat) : natToDigits n ≠ [] := by
  rw [natToDigits]
  split
  · simp
  · simp

theorem natToDigits_all_dig (n : Nat) : ∀ c ∈ natToDigits n, isDig c = true := by
  induction n using Nat.strong_induction_on with
  | _ n ih =>
    rw [natToDigits]
    split
    · next h => intro c hc; simp at hc; subst hc; exact digitCh_isDig n h
    · next h =>
      intro c hc
      rw [List.mem_append] at hc
      rcases hc with hc | hc
      · exact ih (n / 10) (Nat.div_lt_self (by omega) (by omega)) c hc
      · simp at hc; subst hc; exact digitCh_isDig (n % 10) (Nat.mod_lt n (by omega))

theorem natToDigits_head (n : Nat) : ∃ d ds, natToDigits n = d :: ds ∧ isDig d = true := by
  cases h : natToDigits n with
  | nil => exact absurd h (natToDigits_ne_nil n)
  | cons d ds =>
    refine ⟨d, ds, rfl, natToDigits_all_dig n d ?_⟩
    rw [h]; exact List.mem_cons_self d ds

theorem natToDigits_foldl (n : Nat) :
    ∀ acc, List.foldl (fun a c => a * 10 + (c.toNat - 48)) acc (natToDigits n) =
      acc * 10 ^ (natToDigits n).length + n := by
  induction n using Nat.strong_induction_on with
  | _ n ih =>
    intro acc
    rw [natToDigits]
    split
    · next h =>
      simp [List.foldl, digitCh_val n h]
    · next h =>
      rw [List.foldl_append, List.length_append,
        ih (n / 10) (Nat.div_lt_self (by omega) (by omega)) acc]
      simp only [List.foldl, List.length_cons, List.length_nil]
      rw [digitCh_val (n % 10) (Nat.mod_lt n (by omega))]
      rw [pow_add, pow_one]
      have := Nat.div_add_mod n 10
      ring_nf
      omega

theorem parseDigits_of_digits (ds : List Char) (hds : ∀ c ∈ ds, isDig c = true) :
    ∀ (rest : List Char), headNotDig rest → ∀ acc,
      parseDigits (ds ++ rest) acc =
        (List.foldl (fun a c => a * 10 + (c.toNat - 48)) acc ds, rest) := by
  induction ds with
  | nil =>
    intro rest hrest acc
    cases rest with
    | nil => rfl
    | cons c r =>
      have : isDig c = false := hrest c rfl
      simp [parseDigits, this]
  | cons d ds ihds =>
    intro rest hrest acc
    have hd : isDig d = true := hds d (List.mem_cons_self d ds)
    simp only [List.cons_append, parseDigits, hd, if_true]
    exact ihds (fun c hc => hds c (List.mem_cons_of_mem d hc)) rest hrest _

theorem parseDigits_natToDigits (n : Nat) (rest : List Char) (hrest : headNotDig rest) :
    parseDigits (natToDigits n ++ rest) 0 = (n, rest) := by
  rw [parseDigits_of_digits (natToDigits n) (natToDigits_all_dig n) rest hrest 0,
    natToDigits_foldl n 0]
  simp

theorem expectChars_append (p : List Char) (rest : List Char) :
    expectChars p (p ++ rest) = some rest := by
  induction p with
  | nil => rfl
  | cons c cs ih => simp [expectChars, ih]

theorem hexVal_hexDigitCh : ∀ m, m < 16 → hexVal (hexDigitCh m) = some m := by decide

theorem parseStringBody_esc (s : List Char) (r : List Char) :
    parseStringBody (escList s ++ '\"' :: r) = some (s, r) := by
  induction s with
  | nil =>
    simp only [escList, List.nil_append]
    rw [parseStringBody.eq_def]
    simp
  | cons c s ih =>
    show parseStringBody ((escChar c ++ escList s) ++ '\"' :: r) = _
    rw [escChar]
    by_cases h1 : c = '\"'
    · subst h1
      simp only [List.cons_append, List.nil_append, List.append_assoc]
      rw [parseStringBody.eq_def]
      simp [ih]
    · rw [if_neg h1]
      by_cases h2 : c = '\\'
      · subst h2
        simp only [List.cons_append, List.nil_append, List.append_assoc]
        rw [parseStringBody.eq_def]
        simp [ih]
      · rw [if_neg h2]
        by_cases h3 : c = '\n'
        · subst h3
          simp only [List.cons_append, List.nil_append, List.append_assoc]
          rw [parseStringBody.eq_def]
          simp [ih]
        · rw [if_neg h3]
          by_cases h4 : c = '\t'
          · subst h4
            simp only [List.cons_append, List.nil_append, List.append_assoc]
            rw [parseStringBody.eq_def]
            simp [ih]
          · rw [if_neg h4]
            by_cases h5 : c = '\r'
            · subst h5
              simp only [List.cons_append, List.nil_append, List.append_assoc]
              rw [parseStringBody.eq_def]
              simp [ih]
            · rw [if_neg h5]
              by_cases h6 : c.toNat = 8
              · have hc : c = Char.ofNat 8 := by rw [← h6, Char.ofNat_toNat]
                rw [if_pos h6]
                simp only [List.cons_append, List.nil_append, List.append_assoc]
                rw [parseStringBody.eq_def]
                simp [ih, hc]
              · rw [if_neg h6]
                by_cases h7 : c.toNat = 12
                · have hc : c = Char.ofNat 12 := by rw [← h7, Char.ofNat_toNat]
                  rw [if_pos h7]
                  simp only [List.cons_append, List.nil_append, List.append_assoc]
                  rw [parseStringBody.eq_def]
                  simp [ih, hc]
                · rw [if_neg h7]
                  by_cases h8 : c.toNat < 32
                  · rw [if_pos h8]
                    have hq : c.toNat / 16 < 16 := by omega
                    have hr' : c.toNat % 16 < 16 := by omega
                    simp only [List.cons_append, List.nil_append, List.append_assoc]
                    rw [parseStringBody.eq_def]
                    have h0 : hexVal '0' = some 0 := by decide
                    simp [hexVal_hexDigitCh _ hq, hexVal_hexDigitCh _ hr', ih, h0]
                    rw [show c.toNat / 16 * 16 + c.toNat % 16 = c.toNat from by omega,
                      Char.ofNat_toNat]
                  · rw [if_neg h8]
                    simp only [List.cons_append, List.nil_append, List.append_assoc,
                      List.singleton_append]
                    rw [parseStringBody.eq_def]
                    simp [h1, h2, ih]

@[simp] theorem dumpsV_jnull : dumpsV JVal.jnull = ['n', 'u', 'l', 'l'] := by
  rw [dumpsV.eq_def]

@[simp] theorem dumpsV_jtrue : dumpsV (JVal.jbool true) = ['t', 'r', 'u', 'e'] := by
  rw [dumpsV.eq_def]

@[simp] theorem dumpsV_jfalse : dumpsV (JVal.jbool false) = ['f', 'a', 'l', 's', 'e'] := by
  rw [dumpsV.eq_def]

@[simp] theorem dumpsV_jnum (n : Int) : dumpsV (JVal.jnum n) = renderInt n := by
  rw [dumpsV.eq_def]

@[simp] theorem dumpsV_jstr (s : String) :
    dumpsV (JVal.jstr s) = '\"' :: (escList s.data ++ ['\"']) := by
  rw [dumpsV.eq_def]

@[simp] theorem dumpsV_jarr_nil : dumpsV (JVal.jarr []) = ['[', ']'] := by
  rw [dumpsV.eq_def]

@[simp] theorem dumpsV_jarr_cons (e : JVal) (es : List JVal) :
    dumpsV (JVal.jarr (e :: es)) = '[' :: (dumpsV e ++ (dumpsElems es ++ [']'])) := by
  rw [dumpsV.eq_def]

@[simp] theorem dumpsV_jobj_nil : dumpsV (JVal.jobj []) = [lbrace, rbrace] := by
  rw [dumpsV.eq_def]

@[simp] theorem dumpsV_jobj_cons (m : String × JVal) (ms : List (String × JVal)) :
    dumpsV (JVal.jobj (m :: ms)) = lbrace :: (dumpsMember m ++ (dumpsMembers ms ++ [rbrace])) := by
  rw [dumpsV.eq_def]

@[simp] theorem dumpsMember_eq (k : String) (v : JVal) :
    dumpsMember (k, v) = '\"' :: (escList k.data ++ ('\"' :: ':' :: ' ' :: dumpsV v)) := by
  rw [dumpsMember.eq_def]

@[simp] theorem dumpsElems_nil : dumpsElems [] = [] := by
  rw [dumpsElems.eq_def]

@[simp] theorem dumpsElems_cons (e : JVal) (es : List JVal) :
    dumpsElems (e :: es) = ',' :: ' ' :: (dumpsV e ++ dumpsElems es) := by
  rw [dumpsElems.eq_def]

@[simp] theorem dumpsMembers_nil : dumpsMembers [] = [] := by
  rw [dumpsMembers.eq_def]

@[simp] theorem dumpsMembers_cons (m : String × JVal) (ms : List (String × JVal)) :
    dumpsMembers (m :: ms) = ',' :: ' ' :: (dumpsMember m ++ dumpsMembers ms) := by
  rw [dumpsMembers.eq_def]

@[simp] theorem costV_jnull : costV JVal.jnull = 1 := by rw [costV.eq_def]

@[simp] theorem costV_jbool (b : Bool) : costV (JVal.jbool b) = 1 := by rw [costV.eq_def]

@[simp] theorem costV_jnum (n : Int) : costV (JVal.jnum n) = 1 := by rw [costV.eq_def]

@[simp] theorem costV_jstr (s : String) : costV (JVal.jstr s) = 1 := by rw [costV.eq_def]

@[simp] theorem costV_jarr (es : List JVal) : costV (JVal.jarr es) = 1 + costElems es := by
  rw [costV.eq_def]

@[simp] theorem costV_jobj (ms : List (String × JVal)) :
    costV (JVal.jobj ms) = 1 + costMembers ms := by
  rw [costV.eq_def]

@[simp] theorem costElems_nil : costElems [] = 0 := by rw [costElems.eq_def]

@[simp] theorem costElems_cons (e : JVal) (es : List JVal) :
    costElems (e :: es) = 1 + max (costV e) (costElems es) := by
  rw [costElems.eq_def]

@[simp] theorem costMembers_nil : costMembers [] = 0 := by rw [costMembers.eq_def]

@[simp] theorem costMembers_cons (k : String) (v : JVal) (ms : List (String × JVal)) :
    costMembers ((k, v) :: ms) = 1 + max (costV v) (costMembers ms) := by
  rw [costMembers.eq_def]

theorem costV_pos (v : JVal) : 1 ≤ costV v := by
  cases v <;> simp

theorem isDig_dispatch {c : Char} (h : isDig c = true) :
    c ≠ '\"' ∧ c ≠ lbrace ∧ c ≠ '[' ∧ c ≠ 't' ∧ c ≠ 'f' ∧ c ≠ 'n' ∧ c ≠ '-' := by
  refine ⟨?_, ?_, ?_, ?_, ?_, ?_, ?_⟩ <;> (intro e; subst e; exact absurd h (by decide))

theorem dumpsV_head (v : JVal) :
    ∃ c cs, dumpsV v = c :: cs ∧ isWs c = false ∧ c ≠ ']' := by
  cases v with
  | jnull => exact ⟨'n', ['u', 'l', 'l'], by simp, by decide, by decide⟩
  | jbool b => cases b with
    | true => exact ⟨'t', ['r', 'u', 'e'], by simp, by decide, by decide⟩
    | false => exact ⟨'f', ['a', 'l', 's', 'e'], by simp, by decide, by decide⟩
  | jnum n => cases n with
    | ofNat k =>
      obtain ⟨d, ds, hd, hdig⟩ := natToDigits_head k
      refine ⟨d, ds, by simp [renderInt, hd], isDig_not_ws hdig, ?_⟩
      intro e; subst e; exact absurd hdig (by decide)
    | negSucc m =>
      exact ⟨'-', natToDigits (m + 1), by simp [renderInt], by decide, by decide⟩
  | jstr s => exact ⟨'\"', escList s.data ++ ['\"'], by simp, by decide, by decide⟩
  | jarr es => cases es with
    | nil => exact ⟨'[', [']'], by simp, by decide, by decide⟩
    | cons e es =>
      exact ⟨'[', dumpsV e ++ (dumpsElems es ++ [']']), by simp, by decide, by decide⟩
  | jobj ms => cases ms with
    | nil => exact ⟨lbrace, [rbrace], by simp, by decide, by decide⟩
    | cons m ms =>
      exact ⟨lbrace, dumpsMember m ++ (dumpsMembers ms ++ [rbrace]), by simp, by decide,
        by decide⟩

theorem skipWs_dumpsV (v : JVal) (X : List Char) :
    skipWs (dumpsV v ++ X) = dumpsV v ++ X := by
  obtain ⟨c, cs, h, hws, _⟩ := dumpsV_head v
  rw [h, List.cons_append, skipWs_cons_of_not _ hws]

theorem headNotDig_nil : headNotDig [] := by
  intro c hc; simp at hc

theorem headNotDig_cons {c : Char} (h : isDig c = false) (r : List Char) :
    headNotDig (c :: r) := by
  intro d hd; simp at hd; subst hd; exact h

theorem parseValue_cons_ws (f : Nat) {c : Char} (h : isWs c = true) (X : List Char) :
    parseValue f (c :: X) = parseValue f X := by
  cases f with
  | zero => rfl
  | succ f =>
    conv_lhs => rw [parseValue.eq_def]
    conv_rhs => rw [parseValue.eq_def]
    simp only [skipWs_cons_of_ws _ h]

theorem parseElems_cons_ws (f : Nat) {c : Char} (h : isWs c = true) (X : List Char) :
    parseElems f (c :: X) = parseElems f X := by
  cases f with
  | zero => rfl
  | succ f =>
    conv_lhs => rw [parseElems.eq_def]
    conv_rhs => rw [parseElems.eq_def]
    simp only [skipWs_cons_of_ws _ h]

theorem parseMembers_cons_ws (f : Nat) {c : Char} (h : isWs c = true) (X : List Char) :
    parseMembers f (c :: X) = parseMembers f X := by
  cases f with
  | zero => rfl
  | succ f =>
    conv_lhs => rw [parseMembers.eq_def]
    conv_rhs => rw [parseMembers.eq_def]
    simp only [skipWs_cons_of_ws _ h]

@[simp] theorem string_mk_data (s : String) : String.mk s.data = s := rfl

theorem parse_dumps (f : Nat) :
    (∀ v rest, costV v ≤ f → headNotDig rest →
        parseValue f (dumpsV v ++ rest) = some (v, rest)) ∧
    (∀ e es rest, costElems (e :: es) ≤ f → headNotDig rest →
        parseElems f (dumpsV e ++ (dumpsElems es ++ ']' :: rest)) = some (e :: es, rest)) ∧
    (∀ k v ms rest, costMembers ((k, v) :: ms) ≤ f → headNotDig rest →
        parseMembers f (dumpsMember (k, v) ++ (dumpsMembers ms ++ rbrace :: rest)) =
          some ((k, v) :: ms, rest)) := by
  induction f with
  | zero =>
    refine ⟨?_, ?_, ?_⟩
    · intro v rest hc _
      exact absurd hc (by have := costV_pos v; omega)
    · intro e es rest hc _
      simp only [costElems_cons] at hc
      omega
    · intro k v ms rest hc _
      simp only [costMembers_cons] at hc
      omega
  | succ f ih =>
    obtain ⟨ihV, ihE, ihM⟩ := ih
    refine ⟨?_, ?_, ?_⟩
    · intro v rest hcost hrest
      cases v with
      | jnull =>
        rw [parseValue.eq_def]
        simp [skipWs, isWs, expectChars, lbrace, rbrace]
      | jbool b =>
        cases b with
        | true =>
          rw [parseValue.eq_def]
          simp [skipWs, isWs, expectChars, lbrace, rbrace]
        | false =>
          rw [parseValue.eq_def]
          simp [skipWs, isWs, expectChars, lbrace, rbrace]
      | jnum n =>
        cases n with
        | ofNat k =>
          obtain ⟨d, ds, hd, hdig⟩ := natToDigits_head k
          obtain ⟨hne1, hne2, hne3, hne4, hne5, hne6, hne7⟩ := isDig_dispatch hdig
          have hws := isDig_not_ws hdig
          have hpd : parseDigits (d :: (ds ++ rest)) 0 = (k, rest) := by
            rw [← List.cons_append, ← hd]
            exact parseDigits_natToDigits k rest hrest
          rw [parseValue.eq_def]
          simp only [dumpsV_jnum, renderInt, hd, List.cons_append]
          rw [skipWs_cons_of_not _ hws]
          simp [hne1, hne2, hne3, hne4, hne5, hne6, hne7, hdig, hpd]
        | negSucc m =>
          obtain ⟨d, ds, hd, hdig⟩ := natToDigits_head (m + 1)
          have hpd : parseDigits (d :: (ds ++ rest)) 0 = (m + 1, rest) := by
            rw [← List.cons_append, ← hd]
            exact parseDigits_natToDigits (m + 1) rest hrest
          rw [parseValue.eq_def]
          simp only [dumpsV_jnum, renderInt, List.cons_append]
          rw [skipWs_cons_of_not _ (by decide)]
          rw [hd, List.cons_append]
          simp [hdig, hpd, Int.negSucc_eq, lbrace, rbrace]
      | jstr s =>
        rw [parseValue.eq_def]
        simp only [dumpsV_jstr, List.cons_append, List.append_assoc, List.singleton_append]
        rw [skipWs_cons_of_not _ (by decide)]
        simp [parseStringBody_esc, lbrace, rbrace]
      | jarr es =>
        cases es with
        | nil =>
          rw [parseValue.eq_def]
          simp [skipWs, isWs, lbrace, rbrace]
        | cons e es =>
          have hcE : costElems (e :: es) ≤ f := by
            simp only [costV_jarr] at hcost
            omega
          obtain ⟨c0, cs0, hh, hws0, hne0⟩ := dumpsV_head e
          have hE : parseElems f (c0 :: (cs0 ++ (dumpsElems es ++ ']' :: rest))) =
              some (e :: es, rest) := by
            rw [← List.cons_append, ← hh]
            exact ihE e es rest hcE hrest
          rw [parseValue.eq_def]
          simp only [dumpsV_jarr_cons, List.cons_append, List.append_assoc]
          rw [skipWs_cons_of_not _ (by decide)]
          simp only [hh, List.cons_append]
          simp [skipWs_cons_of_not _ hws0, hne0, hE, lbrace, rbrace]
      | jobj ms =>
        cases ms with
        | nil =>
          rw [parseValue.eq_def]
          simp [skipWs, isWs, lbrace, rbrace]
        | cons m ms =>
          obtain ⟨k, v⟩ := m
          have hcM : costMembers ((k, v) :: ms) ≤ f := by
            simp only [costV_jobj] at hcost
            omega
          have hM : parseMembers f
              ('\"' :: ((escList k.data ++ ('\"' :: ':' :: ' ' :: dumpsV v)) ++
                (dumpsMembers ms ++ rbrace :: rest))) = some ((k, v) :: ms, rest) := by
            rw [← List.cons_append, ← dumpsMember_eq]
            exact ihM k v ms rest hcM hrest
          rw [parseValue.eq_def]
          simp only [dumpsV_jobj_cons, dumpsMember_eq, List.cons_append, List.append_assoc]
          rw [skipWs_cons_of_not _ (by decide)]
          simp only [List.append_assoc, List.cons_append, rbrace] at hM
          simp [skipWs, isWs, lbrace, rbrace, hM]
    · intro e es rest hcE hrest
      have hmax1 := Nat.le_max_left (costV e) (costElems es)
      have hmax2 := Nat.le_max_right (costV e) (costElems es)
      simp only [costElems_cons] at hcE
      have hcV : costV e ≤ f := by omega
      have hR : headNotDig (dumpsElems es ++ ']' :: rest) := by
        cases es with
        | nil => simpa using headNotDig_cons (by decide) rest
        | cons e2 es2 =>
          simp only [dumpsElems_cons, List.cons_append]
          exact headNotDig_cons (by decide) _
      have hV : parseValue f (dumpsV e ++ (dumpsElems es ++ ']' :: rest)) =
          some (e, dumpsElems es ++ ']' :: rest) := ihV e _ hcV hR
      rw [parseElems.eq_def]
      simp only [skipWs_dumpsV, hV]
      cases es with
      | nil => simp [skipWs, isWs, lbrace, rbrace]
      | cons e2 es2 =>
        have hc2 : costElems (e2 :: es2) ≤ f := by omega
        have hws' : parseElems f
            (' ' :: (dumpsV e2 ++ (dumpsElems es2 ++ ']' :: rest))) =
            parseElems f (dumpsV e2 ++ (dumpsElems es2 ++ ']' :: rest)) :=
          parseElems_cons_ws f (by decide) _
        have hE2 : parseElems f (dumpsV e2 ++ (dumpsElems es2 ++ ']' :: rest)) =
            some (e2 :: es2, rest) :=
          ihE e2 es2 rest hc2 hrest
        simp [skipWs, isWs, hws', hE2, lbrace, rbrace]
    · intro k v ms rest hcM hrest
      have hmax1 := Nat.le_max_left (costV v) (costMembers ms)
      have hmax2 := Nat.le_max_right (costV v) (costMembers ms)
      simp only [costMembers_cons] at hcM
      have hcV : costV v ≤ f := by omega
      cases ms with
      | nil =>
        have hR : headNotDig (rbrace :: rest) := headNotDig_cons (by decide) rest
        have hVws : parseValue f (' ' :: (dumpsV v ++ rbrace :: rest)) =
            some (v, rbrace :: rest) := by
          rw [parseValue_cons_ws f (by decide)]
          simpa using ihV v (rbrace :: rest) hcV hR
        rw [parseMembers.eq_def]
        simp only [dumpsMember_eq, dumpsMembers_nil, List.cons_append, List.append_assoc,
          List.nil_append]
        rw [skipWs_cons_of_not _ (by decide)]
        simp only [rbrace] at hVws
        simp [skipWs, isWs, parseStringBody_esc, hVws, lbrace, rbrace]
      | cons m2 ms2 =>
        obtain ⟨k2, v2⟩ := m2
        have hc2 : costMembers ((k2, v2) :: ms2) ≤ f := by omega
        have hR : headNotDig (dumpsMembers ((k2, v2) :: ms2) ++ rbrace :: rest) := by
          simp only [dumpsMembers_cons, List.cons_append]
          exact headNotDig_cons (by decide) _
        have hVws : parseValue f
            (' ' :: (dumpsV v ++ (dumpsMembers ((k2, v2) :: ms2) ++ rbrace :: rest))) =
            some (v, dumpsMembers ((k2, v2) :: ms2) ++ rbrace :: rest) := by
          rw [parseValue_cons_ws f (by decide)]
          exact ihV v _ hcV hR
        have hM2 : parseMembers f
            (' ' :: (dumpsMember (k2, v2) ++ (dumpsMembers ms2 ++ rbrace :: rest))) =
            some ((k2, v2) :: ms2, rest) := by
          rw [parseMembers_cons_ws f (by decide)]
          exact ihM k2 v2 ms2 rest hc2 hrest
        rw [parseMembers.eq_def]
        simp only [dumpsMember_eq, dumpsMembers_cons, List.cons_append,
          List.append_assoc] at hVws hM2 ⊢
        rw [skipWs_cons_of_not _ (by decide)]
        simp only [rbrace] at hVws hM2
        simp [skipWs, isWs, parseStringBody_esc, hVws, hM2, lbrace, rbrace]

@[simp] theorem string_data_mk (l : List Char) : (String.mk l).data = l := rfl

theorem cost_le_all (N : Nat) :
    (∀ v : JVal, sizeOf v ≤ N → costV v ≤ (dumpsV v).length + 1) ∧
    (∀ es : List JVal, sizeOf es ≤ N → costElems es ≤ (dumpsElems es).length) ∧
    (∀ ms : List (String × JVal), sizeOf ms ≤ N → costMembers ms ≤ (dumpsMembers ms).length) := by
  induction N using Nat.strong_induction_on with
  | _ N ih =>
    refine ⟨?_, ?_, ?_⟩
    · intro v hv
      cases v with
      | jnull => simp
      | jbool b => cases b <;> simp
      | jnum n => simp
      | jstr s => simp
      | jarr es =>
        have hlt : sizeOf es < N := by
          have := JVal.jarr.sizeOf_spec es
          omega
        have hE := (ih (sizeOf es) hlt).2.1 es le_rfl
        cases es with
        | nil => simp
        | cons e es2 =>
          simp only [costV_jarr, dumpsV_jarr_cons, dumpsElems_cons, List.length_cons,
            List.length_append] at hE ⊢
          omega
      | jobj ms =>
        have hlt : sizeOf ms < N := by
          have := JVal.jobj.sizeOf_spec ms
          omega
        have hM := (ih (sizeOf ms) hlt).2.2 ms le_rfl
        cases ms with
        | nil => simp
        | cons m ms2 =>
          obtain ⟨k, v⟩ := m
          simp only [costV_jobj, dumpsV_jobj_cons, dumpsMembers_cons, dumpsMember_eq,
            List.length_cons, List.length_append] at hM ⊢
          omega
    · intro es hes
      cases es with
      | nil => simp
      | cons e es2 =>
        have hsz := List.cons.sizeOf_spec e es2
        have h1 : sizeOf e < N := by omega
        have h2 : sizeOf es2 < N := by omega
        have hV := (ih (sizeOf e) h1).1 e le_rfl
        have hE := (ih (sizeOf es2) h2).2.1 es2 le_rfl
        have hmx : max (costV e) (costElems es2) ≤
            (dumpsV e).length + 1 + (dumpsElems es2).length := by
          apply Nat.max_le.mpr
          constructor <;> omega
        simp only [costElems_cons, dumpsElems_cons, List.length_cons, List.length_append]
        omega
    · intro ms hms
      cases ms with
      | nil => simp
      | cons m ms2 =>
        obtain ⟨k, v⟩ := m
        have hsz := List.cons.sizeOf_spec (k, v) ms2
        have hp := Prod.mk.sizeOf_spec k v
        have h1 : sizeOf v < N := by omega
        have h2 : sizeOf ms2 < N := by omega
        have hV := (ih (sizeOf v) h1).1 v le_rfl
        have hM := (ih (sizeOf ms2) h2).2.2 ms2 le_rfl
        have hmx : max (costV v) (costMembers ms2) ≤
            (dumpsV v).length + 1 + (dumpsMembers ms2).length := by
          apply Nat.max_le.mpr
          constructor <;> omega
        simp only [costMembers_cons, dumpsMembers_cons, dumpsMember_eq, List.length_cons,
          List.length_append]
        omega

/-- The printer/parser round trip: json.loads recovers exactly the value
    json.dumps rendered. -/
theorem json_loads_dumps (v : JVal) : json_loads (json_dumps v) = some v := by
  unfold json_loads json_dumps
  have hc : costV v ≤ (dumpsV v).length + 1 :=
    (cost_le_all (sizeOf v)).1 v le_rfl
  have hp := (parse_dumps ((dumpsV v).length + 1)).1 v [] hc headNotDig_nil
  rw [List.append_nil] at hp
  simp only [string_data_mk]
  rw [hp]
  simp [skipWs]

/-- Python dict assignment d[k] = v on an insertion-ordered association
    list: rebind an existing key in place, otherwise append at the end. -/
def insertPy {α : Type} : List (String × α) → String → α → List (String × α)
  | [], k, v => [(k, v)]
  | (k0, v0) :: rest, k, v =>
    if k0 = k then (k, v) :: rest else (k0, v0) :: insertPy rest k v

/-- Line 12. -/
def CACHE_FILENAME : String := "nps_cache.json"

/-- Line 15. -/
def BASEURL : String := "https://www.nps.gov"

/-- The view of a JSON value as a Python dict; any other decoded shape
    makes the dict-only operations used on it (.keys(), indexing) raise. -/
def asObj : JVal → Option (List (String × JVal))
  | JVal.jobj kvs => some kvs
  | _ => none

/-- open_cache (lines 17-37): read CACHE_FILENAME and json.loads its
    contents; a missing file or undecodable contents land in the bare
    except branch, which yields the empty dict.  The backing file is
    modelled by its contents, none when the file does not exist. -/
def open_cache (file : Option String) : JVal :=
  match file with
  | none => JVal.jobj []
  | some s =>
    match json_loads s with
    | some v => v
    | none => JVal.jobj []

/-- save_cache (lines 40-55): json.dumps the dict and overwrite
    CACHE_FILENAME with the result; the returned string is the new file
    contents. -/
def save_cache (cache_dict : List (String × JVal)) : String :=
  json_dumps (JVal.jobj cache_dict)

/-- The process state: the backing cache file, and the module-level global
    CACHE_DICT, which line 13 initialises to the empty dict and which no
    function ever rebinds (line 73 of make_request_with_cache assigns a
    local variable of the same name). -/
structure ProcState where
  file : Option String
  cacheDict : List (String × JVal)

/-- The outcome of one cache-aware call: the value returned to the caller,
    the process state after the call, and the number of network requests
    the call issued. -/
structure StepOut where
  ret : JVal
  state : ProcState
  netCalls : Nat

/-- make_request_with_cache (lines 57-83).  The upstream web is the
    parameter net, giving the text of requests.get(url) at this moment.
    Line 73 loads the file into a local CACHE_DICT; a hit returns the
    cached entry with no network call and no state change; a miss fetches,
    stores under the url key, rewrites the whole file via save_cache, and
    returns the body.  none models the uncaught exception raised when the
    file decodes to a non-dict (line 75's .keys()). -/
def make_request_with_cache (net : String → String) (baseurl : String) (st : ProcState) :
    Option StepOut :=
  match asObj (open_cache st.file) with
  | none => none
  | some cd =>
    match cd.lookup baseurl with
    | some v => some { ret := v, state := st, netCalls := 0 }
    | none =>
      let body := net baseurl
      let cd2 := insertPy cd baseurl (JVal.jstr body)
      some { ret := JVal.jstr body
           , state := { st with file := some (save_cache cd2) }
           , netCalls := 1 }

/-- get_nearby_places (lines 230-262).  The places API transport
    (make_request with the fixed parameter dict, origin = the zipcode) is
    the parameter api, giving the decoded response at this moment.  The
    cache consulted is the module-level global CACHE_DICT, keyed by the
    site's zipcode; a miss fetches, stores into the global, and rewrites
    the whole backing file from the global via save_cache (line 261). -/
def get_nearby_places (api : String → JVal) (zipcode : String) (st : ProcState) : StepOut :=
  match st.cacheDict.lookup zipcode with
  | some v => { ret := v, state := st, netCalls := 0 }
  | none =>
    let resp := api zipcode
    let g2 := insertPy st.cacheDict zipcode resp
    { ret := resp
    , state := { file := some (save_cache g2), cacheDict := g2 }
    , netCalls := 1 }

/-- Reopening a file just written by save_cache recovers the saved dict
    (json.loads inverts json.dumps). -/
theorem open_cache_save_cache (m : List (String × JVal)) :
    open_cache (some (save_cache m)) = JVal.jobj m := by
  simp only [open_cache, save_cache, json_loads_dumps]

theorem lookup_insertPy_self {α : Type} (d : List (String × α)) (k : String) (v : α) :
    (insertPy d k v).lookup k = some v := by
  induction d with
  | nil => simp [insertPy, List.lookup]
  | cons p rest ih =>
    obtain ⟨k0, v0⟩ := p
    by_cases h : k0 = k
    · subst h
      simp [insertPy, List.lookup]
    · simp only [insertPy, if_neg h, List.lookup]
      have hbeq : (k == k0) = false := by
        simp [beq_iff_eq]
        exact fun e => h e.symm
      simp [hbeq, ih]

/-- Python's whitespace test used by str.strip(), restricted to the ASCII
    whitespace characters. -/
def isPySpace (c : Char) : Bool :=
  c = ' ' || c = '\t' || c = '\n' || c = '\r' || c.toNat = 11 || c.toNat = 12

/-- Model of Python's str.strip(): drop leading and trailing whitespace. -/
def pyStrip (s : String) : String :=
  String.mk (((s.data.dropWhile isPySpace).reverse.dropWhile isPySpace).reverse)

/-- ASCII lower-casing of one character, as str.lower() does on ASCII. -/
def lowerCh (c : Char) : Char :=
  if 65 ≤ c.toNat && c.toNat ≤ 90 then Char.ofNat (c.toNat + 32) else c

/-- Model of Python's str.lower(), restricted to ASCII case mapping. -/
def pyLower (s : String) : String := String.mk (s.data.map lowerCh)

/-- The NationalSite record (class NationalSite, lines 105-134). -/
structure NationalSite where
  category : String
  name : String
  address : String
  zipcode : String
  phone : String
deriving DecidableEq

/-- A site detail page, modelled by what each designated BeautifulSoup
    query of get_site_instance would find: the text of the designated
    marker, or none when the marker (or its enclosing block) is absent, in
    which case the .text attribute access on the query result raises
    AttributeError. -/
structure DetailPage where
  heroDesignation : Option String
  heroTitle : Option String
  addressLocality : Option String
  addressRegion : Option String
  postalCode : Option String
  tel : Option String

/-- get_site_instance (lines 165-195), with the fetch factored out: the
    argument stands for the fetched-and-parsed detail page.  Only the
    category query (line 186) sits inside a try/except that defaults to
    "No category"; the name, locality, region, postal-code and phone
    queries are bare, so a missing marker raises and no Site is produced
    (modelled by none).  str.strip() is modelled by pyStrip; the address
    is the unstripped locality and region joined by ", ". -/
def get_site_instance (page : DetailPage) : Option NationalSite :=
  let category :=
    match page.heroDesignation with
    | some t => pyStrip t
    | none => "No category"
  match page.heroTitle, page.addressLocality, page.addressRegion,
      page.postalCode, page.tel with
  | some nm, some loc, some reg, some zc, some ph =>
    some { category := category
         , name := pyStrip nm
         , address := loc ++ ", " ++ reg
         , zipcode := pyStrip zc
         , phone := pyStrip ph }
  | _, _, _, _, _ => none

/-- A region (state) page: the h3 headings of the list_parks container in
    document order, each modelled by its anchor's href (none when the
    anchor or its href attribute is missing, which makes the loop body of
    get_sites_for_state raise); the whole field is none when the
    list_parks container itself is absent and find_all raises. -/
structure StatePage where
  listParks : Option (List (Option String))

/-- The body of get_sites_for_state's for loop for one heading: build the
    detail url (line 223) and extract the site from the fetched page. -/
def extractPark (detailOf : String → DetailPage) (h : Option String) :
    Option NationalSite :=
  match h with
  | none => none
  | some href => get_site_instance (detailOf (BASEURL ++ href ++ "index.htm"))

/-- get_sites_for_state (lines 199-227), with the network factored out:
    detailOf maps each detail-page URL to the parsed page its fetch
    returns.  The loop appends one extracted Site per heading in document
    order; any raise aborts the whole call with nothing returned. -/
def get_sites_for_state (detailOf : String → DetailPage) (page : StatePage) :
    Option (List NationalSite) :=
  match page.listParks with
  | none => none
  | some parks => parks.mapM (extractPark detailOf)

/-- One pass of build_state_url_dict's for loop (lines 157-161) over the
    remaining anchors, carrying the dict built so far.  An anchor is an
    (href attribute, display string) pair; a missing href makes line 159's
    BASEURL+None raise and a missing string makes line 160's .lower()
    raise, aborting the whole build.  str.lower() is modelled by
    pyLower. -/
def buildLoop : List (Option String × Option String) → List (String × String) →
    Option (List (String × String))
  | [], d => some d
  | (href, txt) :: rest, d =>
    match href, txt with
    | some h, some t => buildLoop rest (insertPy d (pyLower t) (BASEURL ++ h))
    | _, _ => none

/-- build_state_url_dict (lines 137-162): the anchors of the designated
    navigation container, in document order; none for the container means
    soup.find returned None and line 156's find_all raises. -/
def build_state_url_dict (anchors : Option (List (Option String × Option String))) :
    Option (List (String × String)) :=
  match anchors with
  | none => none
  | some links => buildLoop links []

/-- The interactive loop's region lookup (lines 273 and 277): the query is
    lower-cased before the dict lookup. -/
def lookupState (d : List (String × String)) (query : String) : Option String :=
  d.lookup (pyLower query)

/-- One element of the searchResults list of a places-API response,
    restricted to the fields the display loop reads. -/
structure PlaceFields where
  group_sic_code_name : String
  address : String
  city : String
deriving DecidableEq

structure PlaceResult where
  name : String
  fields : PlaceFields
deriving DecidableEq

/-- The four values the display loop prints for one result. -/
structure DisplayPlace where
  name : String
  category : String
  address : String
  city : String
deriving DecidableEq

/-- The per-result normalization of the interactive loop (lines 300-314):
    a blank category/address/city is replaced by its sentinel, a non-blank
    one is kept; the name is read straight from the result. -/
def normalizePlace (info : PlaceResult) : DisplayPlace :=
  { name := info.name
  , category :=
      if info.fields.group_sic_code_name ≠ "" then info.fields.group_sic_code_name
      else "no category"
  , address := if info.fields.address ≠ "" then info.fields.address else "no address"
  , city := if info.fields.city ≠ "" then info.fields.city else "no city" }

/-- The loop over every element of searchResults, in order. -/
def displayPlaces (results : List PlaceResult) : List DisplayPlace :=
  results.map normalizePlace

theorem lookup_insertPy_other {α : Type} (d : List (String × α)) (k k' : String) (v : α)
    (h : k' ≠ k) : (insertPy d k v).lookup k' = d.lookup k' := by
  have hbeq : (k' == k) = false := beq_eq_false_iff_ne.mpr h
  induction d with
  | nil => simp [insertPy, List.lookup, hbeq]
  | cons p rest ih =>
    obtain ⟨k0, v0⟩ := p
    by_cases h0 : k0 = k
    · subst h0
      simp [insertPy, List.lookup, hbeq]
    · simp [insertPy, h0, List.lookup, ih]

theorem mapM_option_spec {α β : Type} (g : α → Option β) :
    ∀ (l : List α) (res : List β), l.mapM g = some res →
      res.length = l.length ∧
      ∀ i (h1 : i < l.length) (h2 : i < res.length), g l[i] = some res[i] := by
  intro l
  induction l with
  | nil =>
    intro res h
    simp only [List.mapM_nil, pure, Option.some.injEq] at h
    subst h
    exact ⟨rfl, by intro i h1 _; exact absurd h1 (by simp)⟩
  | cons a l ih =>
    intro res h
    rw [List.mapM_cons] at h
    simp only [bind, Option.bind_eq_some, pure, Option.some.injEq] at h
    obtain ⟨b, hb, bs, hbs, hres⟩ := h
    obtain ⟨hlen, hidx⟩ := ih bs hbs
    subst hres
    refine ⟨by simp [hlen], ?_⟩
    intro i h1 h2
    cases i with
    | zero => simpa using hb
    | succ i =>
      simp only [List.getElem_cons_succ]
      exact hidx i (by simpa using h1) (by simpa using h2)

theorem buildLoop_lookup_preserve :
    ∀ (links : List (Option String × Option String)) (d0 d : List (String × String))
      (key : String), buildLoop links d0 = some d →
      d.lookup key = d0.lookup key ∨
      ∃ h t, (some h, some t) ∈ links ∧ pyLower t = key ∧
        d.lookup key = some (BASEURL ++ h) := by
  intro links
  induction links with
  | nil =>
    intro d0 d key h
    simp only [buildLoop, Option.some.injEq] at h
    subst h
    exact Or.inl rfl
  | cons a rest ih =>
    intro d0 d key h
    obtain ⟨ho, hte⟩ := a
    cases ho with
    | none => simp [buildLoop] at h
    | some hv =>
      cases hte with
      | none => simp [buildLoop] at h
      | some tv =>
        simp only [buildLoop] at h
        rcases ih _ d key h with hsame | ⟨h', t', hmem, hkey, hval⟩
        · by_cases hk : pyLower tv = key
          · refine Or.inr ⟨hv, tv, by simp, hk, ?_⟩
            rw [hsame, ← hk, lookup_insertPy_self]
          · refine Or.inl ?_
            rw [hsame, lookup_insertPy_other _ _ _ _ (fun e => hk e.symm)]
        · exact Or.inr ⟨h', t', List.mem_cons_of_mem _ hmem, hkey, hval⟩

theorem buildLoop_mem_lookup :
    ∀ (links : List (Option String × Option String)) (d0 d : List (String × String)),
      buildLoop links d0 = some d →
      (∀ h1 t1 h2 t2, (some h1, some t1) ∈ links → (some h2, some t2) ∈ links →
        pyLower t1 = pyLower t2 → h1 = h2) →
      ∀ h t, (some h, some t) ∈ links → d.lookup (pyLower t) = some (BASEURL ++ h) := by
  intro links
  induction links with
  | nil =>
    intro d0 d _ _ h t hmem
    simp at hmem
  | cons a rest ih =>
    intro d0 d hbuild hnocol h t hmem
    obtain ⟨ho, hte⟩ := a
    cases ho with
    | none => simp [buildLoop] at hbuild
    | some hv =>
      cases hte with
      | none => simp [buildLoop] at hbuild
      | some tv =>
        simp only [buildLoop] at hbuild
        rcases List.mem_cons.mp hmem with hhead | htail
        · injection hhead with e1 e2
          injection e1 with e1
          injection e2 with e2
          subst e1
          subst e2
          rcases buildLoop_lookup_preserve rest _ d (pyLower t) hbuild with hsame |
              ⟨h', t', hmem', hkey, hval⟩
          · rw [hsame, lookup_insertPy_self]
          · have : h' = h := hnocol h' t' h t (List.mem_cons_of_mem _ hmem')
              (List.mem_cons_self _ _) hkey
            rw [hval, this]
        · exact ih _ d hbuild
            (fun a1 b1 a2 b2 m1 m2 he => hnocol a1 b1 a2 b2
              (List.mem_cons_of_mem _ m1) (List.mem_cons_of_mem _ m2) he)
            h t htail

/-- C1 (the code violates the claimed invariant; evaluation at the failing
    sequence): from a fresh process with no cache file, a
    make_request_with_cache miss writes the URL key to the backing file,
    and the very next get_nearby_places miss rewrites the file from the
    never-loaded global CACHE_DICT, leaving the URL key absent — the key
    did not stay bound for the lifetime of the store. -/
theorem cache_key_dropped_by_nearby_save :
    make_request_with_cache (fun _ => "index-page") "https://www.nps.gov/index.htm"
        ⟨none, []⟩ =
      some { ret := JVal.jstr "index-page"
           , state := ⟨some (save_cache
               [("https://www.nps.gov/index.htm", JVal.jstr "index-page")]), []⟩
           , netCalls := 1 } ∧
    (asObj (open_cache (some (save_cache
        [("https://www.nps.gov/index.htm", JVal.jstr "index-page")])))).bind
      (List.lookup "https://www.nps.gov/index.htm") = some (JVal.jstr "index-page") ∧
    get_nearby_places (fun _ => JVal.jobj [("searchResults", JVal.jarr [])]) "49931"
        ⟨some (save_cache [("https://www.nps.gov/index.htm", JVal.jstr "index-page")]), []⟩ =
      { ret := JVal.jobj [("searchResults", JVal.jarr [])]
      , state := ⟨some (save_cache [("49931", JVal.jobj [("searchResults", JVal.jarr [])])]),
          [("49931", JVal.jobj [("searchResults", JVal.jarr [])])]⟩
      , netCalls := 1 } ∧
    (asObj (open_cache (some (save_cache
        [("49931", JVal.jobj [("searchResults", JVal.jarr [])])])))).bind
      (List.lookup "https://www.nps.gov/index.htm") = none := by
  refine ⟨rfl, ?_, rfl, ?_⟩
  · rw [open_cache_save_cache]
    rfl
  · rw [open_cache_save_cache]
    rfl

/-- C2: for a URL not yet in the backing store, two successive
    make_request_with_cache calls perform exactly one network request in
    total (the first fetches and saves, the second hits the cache with
    zero network activity), and the second call returns content identical
    to the first even though the upstream (net2) may have changed
    arbitrarily in between. -/
theorem make_request_with_cache_idempotent_fetch
    (net1 net2 : String → String) (url : String) (st : ProcState)
    (cd : List (String × JVal))
    (hopen : asObj (open_cache st.file) = some cd)
    (hmiss : cd.lookup url = none) :
    make_request_with_cache net1 url st =
      some { ret := JVal.jstr (net1 url)
           , state := { st with
               file := some (save_cache (insertPy cd url (JVal.jstr (net1 url)))) }
           , netCalls := 1 } ∧
    make_request_with_cache net2 url
        { st with file := some (save_cache (insertPy cd url (JVal.jstr (net1 url)))) } =
      some { ret := JVal.jstr (net1 url)
           , state := { st with
               file := some (save_cache (insertPy cd url (JVal.jstr (net1 url)))) }
           , netCalls := 0 } := by
  constructor
  · simp [make_request_with_cache, hopen, hmiss]
  · simp [make_request_with_cache, open_cache_save_cache, asObj, lookup_insertPy_self]

theorem make_request_with_cache_idempotent_fetch_witness :
    make_request_with_cache (fun _ => "page-one") "https://www.nps.gov/index.htm"
        ⟨none, []⟩ =
      some { ret := JVal.jstr "page-one"
           , state := ⟨some (save_cache
               (insertPy [] "https://www.nps.gov/index.htm" (JVal.jstr "page-one"))), []⟩
           , netCalls := 1 } ∧
    make_request_with_cache (fun _ => "page-two") "https://www.nps.gov/index.htm"
        ⟨some (save_cache
          (insertPy [] "https://www.nps.gov/index.htm" (JVal.jstr "page-one"))), []⟩ =
      some { ret := JVal.jstr "page-one"
           , state := ⟨some (save_cache
               (insertPy [] "https://www.nps.gov/index.htm" (JVal.jstr "page-one"))), []⟩
           , netCalls := 0 } :=
  make_request_with_cache_idempotent_fetch (fun _ => "page-one") (fun _ => "page-two")
    "https://www.nps.gov/index.htm" ⟨none, []⟩ [] rfl rfl

/-- C9: on a cache hit, make_request_with_cache returns the cached entry
    with zero network calls and an unchanged process state — in
    particular, save_cache is not invoked and the backing file is exactly
    what it was before the call. -/
theorem make_request_with_cache_hit_frame
    (net : String → String) (url : String) (st : ProcState)
    (cd : List (String × JVal)) (v : JVal)
    (hopen : asObj (open_cache st.file) = some cd)
    (hhit : cd.lookup url = some v) :
    make_request_with_cache net url st = some { ret := v, state := st, netCalls := 0 } := by
  simp [make_request_with_cache, hopen, hhit]

theorem make_request_with_cache_hit_frame_witness :
    make_request_with_cache (fun _ => "fresh-upstream") "https://www.nps.gov/index.htm"
        ⟨some (save_cache [("https://www.nps.gov/index.htm", JVal.jstr "cached-page")]), []⟩ =
      some { ret := JVal.jstr "cached-page"
           , state := ⟨some (save_cache
               [("https://www.nps.gov/index.htm", JVal.jstr "cached-page")]), []⟩
           , netCalls := 0 } :=
  make_request_with_cache_hit_frame _ _ _
    [("https://www.nps.gov/index.htm", JVal.jstr "cached-page")] _
    (by rw [open_cache_save_cache]; rfl) rfl

/-- C10: get_nearby_places consults only the global CACHE_DICT, which in a
    fresh process is empty regardless of the backing file's contents
    (make_request_with_cache's line 73 binds a local, never the global);
    hence the first call for any zipcode always issues exactly one network
    request — even when the zipcode is a key of the cache file — and the
    save that follows replaces the whole file with just that entry. -/
theorem get_nearby_places_fresh_process_always_fetches
    (api : String → JVal) (zipcode : String) (file : Option String) :
    get_nearby_places api zipcode ⟨file, []⟩ =
      { ret := api zipcode
      , state := ⟨some (save_cache [(zipcode, api zipcode)]), [(zipcode, api zipcode)]⟩
      , netCalls := 1 } := by
  simp [get_nearby_places, List.lookup, insertPy]

/-- C3 counterexample: a detail page whose contact block lacks the phone
    marker but carries every other designated marker makes
    get_site_instance fail (the bare .text on line 193 raises); no Site
    with an empty phone is returned, contrary to the claim. -/
theorem get_site_instance_missing_phone_cex :
    get_site_instance ⟨some "National Park", some "Isle Royale", some "Houghton", some "MI",
      some "49931", none⟩ = none := rfl

/-- C3 (amended): when the detail page's contact block lacks the phone
    marker, get_site_instance fails and returns no Site at all — the phone
    field is hard-fail exactly like name and zipcode, not optional. -/
theorem get_site_instance_missing_phone_fails (page : DetailPage)
    (h : page.tel = none) : get_site_instance page = none := by
  cases page with
  | mk hd ht hl hr hpz htel =>
    have h' : htel = none := h
    subst h'
    cases ht <;> cases hl <;> cases hr <;> cases hpz <;> rfl

theorem get_site_instance_missing_phone_fails_witness :
    get_site_instance ⟨some "National Monument", some "Fort Wayne", some "Detroit",
      some "MI", some "48209", none⟩ = none :=
  get_site_instance_missing_phone_fails _ rfl

/-- C4: get_site_instance treats its fields asymmetrically — a missing
    postal-code marker or a missing name marker makes it fail with no Site
    returned, while a missing category marker alone is caught and the Site
    is returned with the sentinel category "No category". -/
theorem get_site_instance_field_asymmetry :
    (∀ page : DetailPage, page.postalCode = none → get_site_instance page = none) ∧
    (∀ page : DetailPage, page.heroTitle = none → get_site_instance page = none) ∧
    (∀ (page : DetailPage) (nm loc reg zc ph : String),
      page.heroDesignation = none → page.heroTitle = some nm →
      page.addressLocality = some loc → page.addressRegion = some reg →
      page.postalCode = some zc → page.tel = some ph →
      get_site_instance page =
        some { category := "No category", name := pyStrip nm
             , address := loc ++ ", " ++ reg, zipcode := pyStrip zc
             , phone := pyStrip ph }) := by
  refine ⟨?_, ?_, ?_⟩
  · intro page h
    cases page with
    | mk hd ht hl hr hpz htel =>
      have h' : hpz = none := h
      subst h'
      cases ht <;> cases hl <;> cases hr <;> cases htel <;> rfl
  · intro page h
    cases page with
    | mk hd ht hl hr hpz htel =>
      have h' : ht = none := h
      subst h'
      rfl
  · intro page nm loc reg zc ph h0 h1 h2 h3 h4 h5
    cases page with
    | mk hd ht hl hr hpz htel =>
      have e0 : hd = none := h0
      have e1 : ht = some nm := h1
      have e2 : hl = some loc := h2
      have e3 : hr = some reg := h3
      have e4 : hpz = some zc := h4
      have e5 : htel = some ph := h5
      subst e0; subst e1; subst e2; subst e3; subst e4; subst e5
      rfl

theorem get_site_instance_field_asymmetry_witness :
    get_site_instance ⟨some "National Park", some "Isle Royale", some "Houghton", some "MI",
      none, some "(906) 482-0984"⟩ = none ∧
    get_site_instance ⟨some "National Park", none, some "Houghton", some "MI",
      some "49931", some "(906) 482-0984"⟩ = none ∧
    get_site_instance ⟨none, some "Isle Royale", some "Houghton", some "MI",
      some "49931", some "(906) 482-0984"⟩ =
      some { category := "No category", name := "Isle Royale", address := "Houghton, MI"
           , zipcode := "49931", phone := "(906) 482-0984" } :=
  ⟨get_site_instance_field_asymmetry.1 _ rfl,
   get_site_instance_field_asymmetry.2.1 _ rfl,
   by
     have h := get_site_instance_field_asymmetry.2.2
       ⟨none, some "Isle Royale", some "Houghton", some "MI", some "49931",
         some "(906) 482-0984"⟩ "Isle Royale" "Houghton" "MI" "49931" "(906) 482-0984"
       rfl rfl rfl rfl rfl rfl
     rw [h]
     decide⟩

/-- C5: every record the display loop hands on is the normalization of the
    corresponding lookup result: a blank category/address/city is replaced
    by its sentinel ("no category" / "no address" / "no city"), a
    non-blank one is passed through unchanged, and the name is always
    passed through unmodified. -/
theorem displayPlaces_normalization (results : List PlaceResult) (p : PlaceResult)
    (hp : p ∈ results) :
    normalizePlace p ∈ displayPlaces results ∧
    (normalizePlace p).name = p.name ∧
    (p.fields.group_sic_code_name = "" → (normalizePlace p).category = "no category") ∧
    (p.fields.group_sic_code_name ≠ "" →
      (normalizePlace p).category = p.fields.group_sic_code_name) ∧
    (p.fields.address = "" → (normalizePlace p).address = "no address") ∧
    (p.fields.address ≠ "" → (normalizePlace p).address = p.fields.address) ∧
    (p.fields.city = "" → (normalizePlace p).city = "no city") ∧
    (p.fields.city ≠ "" → (normalizePlace p).city = p.fields.city) := by
  refine ⟨List.mem_map_of_mem _ hp, rfl, ?_, ?_, ?_, ?_, ?_, ?_⟩ <;>
    (intro h; simp [normalizePlace, h])

theorem displayPlaces_normalization_witness :
    normalizePlace ⟨"Joe's Pasty Shop", ⟨"Restaurant", "", ""⟩⟩ ∈
      displayPlaces [⟨"Joe's Pasty Shop", ⟨"Restaurant", "", ""⟩⟩] ∧
    (normalizePlace ⟨"Joe's Pasty Shop", ⟨"Restaurant", "", ""⟩⟩).name =
      (⟨"Joe's Pasty Shop", ⟨"Restaurant", "", ""⟩⟩ : PlaceResult).name ∧
    ((⟨"Joe's Pasty Shop", ⟨"Restaurant", "", ""⟩⟩ :
        PlaceResult).fields.group_sic_code_name = "" →
      (normalizePlace ⟨"Joe's Pasty Shop", ⟨"Restaurant", "", ""⟩⟩).category =
        "no category") ∧
    ((⟨"Joe's Pasty Shop", ⟨"Restaurant", "", ""⟩⟩ :
        PlaceResult).fields.group_sic_code_name ≠ "" →
      (normalizePlace ⟨"Joe's Pasty Shop", ⟨"Restaurant", "", ""⟩⟩).category =
        (⟨"Joe's Pasty Shop", ⟨"Restaurant", "", ""⟩⟩ :
          PlaceResult).fields.group_sic_code_name) ∧
    ((⟨"Joe's Pasty Shop", ⟨"Restaurant", "", ""⟩⟩ : PlaceResult).fields.address = "" →
      (normalizePlace ⟨"Joe's Pasty Shop", ⟨"Restaurant", "", ""⟩⟩).address =
        "no address") ∧
    ((⟨"Joe's Pasty Shop", ⟨"Restaurant", "", ""⟩⟩ : PlaceResult).fields.address ≠ "" →
      (normalizePlace ⟨"Joe's Pasty Shop", ⟨"Restaurant", "", ""⟩⟩).address =
        (⟨"Joe's Pasty Shop", ⟨"Restaurant", "", ""⟩⟩ : PlaceResult).fields.address) ∧
    ((⟨"Joe's Pasty Shop", ⟨"Restaurant", "", ""⟩⟩ : PlaceResult).fields.city = "" →
      (normalizePlace ⟨"Joe's Pasty Shop", ⟨"Restaurant", "", ""⟩⟩).city = "no city") ∧
    ((⟨"Joe's Pasty Shop", ⟨"Restaurant", "", ""⟩⟩ : PlaceResult).fields.city ≠ "" →
      (normalizePlace ⟨"Joe's Pasty Shop", ⟨"Restaurant", "", ""⟩⟩).city =
        (⟨"Joe's Pasty Shop", ⟨"Restaurant", "", ""⟩⟩ : PlaceResult).fields.city) :=
  displayPlaces_normalization [⟨"Joe's Pasty Shop", ⟨"Restaurant", "", ""⟩⟩]
    ⟨"Joe's Pasty Shop", ⟨"Restaurant", "", ""⟩⟩ (by simp)

/-- C6: round-trip persistence — writing any dict of string keys and JSON
    values with save_cache and reading the resulting file back with
    open_cache yields exactly the saved mapping. -/
theorem save_cache_open_cache_roundtrip (M : List (String × JVal)) :
    open_cache (some (save_cache M)) = JVal.jobj M :=
  open_cache_save_cache M

/-- C7: when get_sites_for_state succeeds on a region page whose listing
    container holds headings in document order, it returns exactly one
    Site per heading, and the i-th returned Site is the extraction of the
    i-th heading — the order is preserved, with no re-sorting. -/
theorem get_sites_for_state_order_preserved
    (detailOf : String → DetailPage) (parks : List (Option String))
    (sites : List NationalSite)
    (h : get_sites_for_state detailOf ⟨some parks⟩ = some sites) :
    sites.length = parks.length ∧
    ∀ i (h1 : i < parks.length) (h2 : i < sites.length),
      extractPark detailOf parks[i] = some sites[i] := by
  have h' : parks.mapM (extractPark detailOf) = some sites := h
  exact mapM_option_spec _ parks sites h'

theorem get_sites_for_state_order_preserved_witness :
    ([⟨"National Park", "Isle Royale", "Houghton, MI", "49931", "(906) 482-0984"⟩,
      ⟨"National Historical Park", "Keweenaw", "Calumet, MI", "49913", "(906) 337-3168"⟩,
      ⟨"National Lakeshore", "Pictured Rocks", "Munising, MI", "49862", "(906) 387-3700"⟩] :
        List NationalSite).length =
      ([some "/isro/", some "/kewe/", some "/piro/"] : List (Option String)).length ∧
    ∀ i (h1 : i < ([some "/isro/", some "/kewe/", some "/piro/"] :
        List (Option String)).length)
      (h2 : i < ([⟨"National Park", "Isle Royale", "Houghton, MI", "49931",
          "(906) 482-0984"⟩,
        ⟨"National Historical Park", "Keweenaw", "Calumet, MI", "49913", "(906) 337-3168"⟩,
        ⟨"National Lakeshore", "Pictured Rocks", "Munising, MI", "49862",
          "(906) 387-3700"⟩] : List NationalSite).length),
      extractPark
        (fun u =>
          if u = "https://www.nps.gov/isro/index.htm" then
            ⟨some "National Park", some "Isle Royale", some "Houghton", some "MI",
              some "49931", some "(906) 482-0984"⟩
          else if u = "https://www.nps.gov/kewe/index.htm" then
            ⟨some "National Historical Park", some "Keweenaw", some "Calumet", some "MI",
              some "49913", some "(906) 337-3168"⟩
          else
            ⟨some "National Lakeshore", some "Pictured Rocks", some "Munising", some "MI",
              some "49862", some "(906) 387-3700"⟩)
        ([some "/isro/", some "/kewe/", some "/piro/"] : List (Option String))[i] =
        some ([⟨"National Park", "Isle Royale", "Houghton, MI", "49931", "(906) 482-0984"⟩,
          ⟨"National Historical Park", "Keweenaw", "Calumet, MI", "49913",
            "(906) 337-3168"⟩,
          ⟨"National Lakeshore", "Pictured Rocks", "Munising, MI", "49862",
            "(906) 387-3700"⟩] : List NationalSite)[i] :=
  get_sites_for_state_order_preserved
    (fun u =>
      if u = "https://www.nps.gov/isro/index.htm" then
        ⟨some "National Park", some "Isle Royale", some "Houghton", some "MI",
          some "49931", some "(906) 482-0984"⟩
      else if u = "https://www.nps.gov/kewe/index.htm" then
        ⟨some "National Historical Park", some "Keweenaw", some "Calumet", some "MI",
          some "49913", some "(906) 337-3168"⟩
      else
        ⟨some "National Lakeshore", some "Pictured Rocks", some "Munising", some "MI",
          some "49862", some "(906) 387-3700"⟩)
    [some "/isro/", some "/kewe/", some "/piro/"]
    [⟨"National Park", "Isle Royale", "Houghton, MI", "49931", "(906) 482-0984"⟩,
      ⟨"National Historical Park", "Keweenaw", "Calumet, MI", "49913", "(906) 337-3168"⟩,
      ⟨"National Lakeshore", "Pictured Rocks", "Munising, MI", "49862", "(906) 387-3700"⟩]
    (by decide)

/-- C8: build_state_url_dict maps each anchor's display text, lower-cased,
    to the anchor's href prefixed with the base URL (provided distinct
    anchors have distinct lower-cased texts, as on the real page); and the
    interactive loop's lookup lower-cases the query first, so queries that
    agree up to case — such as "Michigan" and "michigan" — look up
    identically. -/
theorem build_state_url_dict_lowercase_keys :
    (∀ (d : List (String × String)) (q1 q2 : String), pyLower q1 = pyLower q2 →
      lookupState d q1 = lookupState d q2) ∧
    (∀ (links : List (Option String × Option String)) (d : List (String × String)),
      build_state_url_dict (some links) = some d →
      (∀ h1 t1 h2 t2, (some h1, some t1) ∈ links → (some h2, some t2) ∈ links →
        pyLower t1 = pyLower t2 → h1 = h2) →
      ∀ h t, (some h, some t) ∈ links → d.lookup (pyLower t) = some (BASEURL ++ h)) := by
  constructor
  · intro d q1 q2 hq
    unfold lookupState
    rw [hq]
  · intro links d hbuild hnocol h t hmem
    exact buildLoop_mem_lookup links [] d hbuild hnocol h t hmem

theorem build_state_url_dict_lowercase_keys_witness :
    lookupState [("michigan", "https://www.nps.gov/state/mi/index.htm")] "Michigan" =
      lookupState [("michigan", "https://www.nps.gov/state/mi/index.htm")] "michigan" ∧
    ([("michigan", "https://www.nps.gov/state/mi/index.htm")] :
        List (String × String)).lookup (pyLower "Michigan") =
      some (BASEURL ++ "/state/mi/index.htm") :=
  ⟨build_state_url_dict_lowercase_keys.1
      [("michigan", "https://www.nps.gov/state/mi/index.htm")] "Michigan" "michigan"
      (by decide),
   build_state_url_dict_lowercase_keys.2
      [(some "/state/mi/index.htm", some "Michigan")]
      [("michigan", "https://www.nps.gov/state/mi/index.htm")]
      (by decide)
      (by
        intro h1 t1 h2 t2 m1 m2 _
        simp only [List.mem_singleton, Prod.mk.injEq, Option.some.injEq] at m1 m2
        rw [m1.1, m2.1])
      "/state/mi/index.htm" "Michigan" (by simp)⟩
